import Mathlib

/-!
Shallow embedding of the MecSimCalc utility library (Python) in Lean 4.

Strings are modelled as `List Char`, byte sequences as `List Nat` (each
element `< 256`).  Fallible Python code is modelled with `Except`.
The embedded functions mirror, statement by statement:

* `input_to_file` and `metadata_to_filetype` from `general_utils.py`,
  together with the parts of the Python standard library they rely on:
  `str.split` (split on every non-overlapping occurrence of the
  separator, left to right), `base64.b64decode` (the ASCII check of
  `_bytes_from_decode_data` followed by the character-skipping state
  machine of `binascii.a2b_base64` in non-strict mode) and
  `base64.b64encode`;
* the first-CSV-then-Excel fallback of `file_to_dataframe` from
  `spreadsheet_utils.py`, with the two pandas parsers abstracted as
  function parameters (they are third-party code);
* `send_gmail` from `quiz_utils.py`, with the SMTP session abstracted
  as a fallible function parameter;
* `string_to_file` from `text_utils.py`, including UTF-8 encoding of
  the text and the construction of the download anchor.
-/

/-- Does `s` start with `pat`?  (Char-list version of `str.startswith`,
used to detect occurrences of a separator.) -/
def startsWith : List Char → List Char → Bool
  | [], _ => true
  | _ :: _, [] => false
  | p :: ps, c :: cs => if p = c then startsWith ps cs else false

/-- Does `s` end with `pat`?  (Python `str.endswith`.) -/
def endsWithL (pat s : List Char) : Bool :=
  startsWith pat.reverse s.reverse

/-- Does `pat` occur as a contiguous substring of `s`?  (The Python
membership test `pat in s`.) -/
def containsSub (pat : List Char) : List Char → Bool
  | [] => pat.isEmpty
  | c :: rest => startsWith pat (c :: rest) || containsSub pat rest

/-- The literal separator `";base64,"` used throughout `general_utils.py`. -/
def sepChars : List Char := [';', 'b', 'a', 's', 'e', '6', '4', ',']

/-- Fuelled worker for Python `str.split(sep)` with a non-empty separator:
scan left to right, cutting at every non-overlapping occurrence of `sep`.
`acc` holds the reversed characters of the part being built.  The fuel is
an upper bound on the number of scan steps; with `fuel ≥ s.length` (as
supplied by `pySplit`) the fuel never runs out, because every step
consumes at least one character of `s`. -/
def pySplitGo (sep : List Char) : Nat → List Char → List Char → List (List Char)
  | 0, acc, s => [acc.reverse ++ s]
  | _ + 1, acc, [] => [acc.reverse]
  | fuel + 1, acc, c :: rest =>
    if startsWith sep (c :: rest) then
      acc.reverse :: pySplitGo sep fuel [] (List.drop sep.length (c :: rest))
    else
      pySplitGo sep fuel (c :: acc) rest

/-- Python `s.split(sep)` for a non-empty `sep`. -/
def pySplit (sep s : List Char) : List (List Char) :=
  pySplitGo sep s.length [] s

/-- An in-memory byte buffer, as produced by `io.BytesIO(data)`:
the freshly constructed buffer holds `data` with its cursor at 0. -/
structure BytesIO where
  data : List Nat
  pos : Nat
  deriving DecidableEq, Repr

/-- The Python exceptions that can escape from the embedded functions.
`binasciiError` is `binascii.Error`, a subclass of `ValueError`. -/
inductive PyErr where
  /-- The ValueError raised explicitly by `input_to_file` when the
  separator is missing (message: Invalid input: must contain ;base64,). -/
  | invalidFormat
  /-- The ValueError raised by tuple unpacking `meta, data = parts` when
  `parts` does not have exactly two elements. -/
  | unpackMismatch
  /-- The ValueError raised by `base64.b64decode` when the argument
  contains a non-ASCII character. -/
  | nonAscii
  /-- The exception `binascii.Error` (a subclass of ValueError):
  malformed base64. -/
  | binasciiError
  /-- The TypeError raised by `string_to_file` on non-string text. -/
  | typeError
  deriving DecidableEq, Repr

/-- Is this exception a `ValueError` (including subclasses)? -/
def isValueError : PyErr → Bool
  | .typeError => false
  | _ => true

/-- The standard base64 alphabet, in order. -/
def b64Alphabet : List Char :=
  ['A', 'B', 'C', 'D', 'E', 'F', 'G', 'H', 'I', 'J', 'K', 'L', 'M',
   'N', 'O', 'P', 'Q', 'R', 'S', 'T', 'U', 'V', 'W', 'X', 'Y', 'Z',
   'a', 'b', 'c', 'd', 'e', 'f', 'g', 'h', 'i', 'j', 'k', 'l', 'm',
   'n', 'o', 'p', 'q', 'r', 's', 't', 'u', 'v', 'w', 'x', 'y', 'z',
   '0', '1', '2', '3', '4', '5', '6', '7', '8', '9', '+', '/']

/-- The alphabet character for a 6-bit value. -/
def alphaChar (v : Nat) : Char := b64Alphabet.getD v '?'

/-- Position of a character in a list, scanning from index `i`. -/
def b64IndexAux (c : Char) : Nat → List Char → Option Nat
  | _, [] => none
  | i, a :: rest => if a = c then some i else b64IndexAux c (i + 1) rest

/-- Model of the lookup table `table_a2b_base64` of `binascii`: the 6-bit
value of a base64 digit, `none` for every other character (the pad
character is handled separately). -/
def b64Index (c : Char) : Option Nat :=
  b64IndexAux c 0 b64Alphabet

/-- Model of `base64.b64encode` on a byte list: standard alphabet, with
pad characters. -/
def b64encode : List Nat → List Char
  | [] => []
  | [b1] =>
    [alphaChar (b1 / 4), alphaChar (b1 % 4 * 16), '=', '=']
  | [b1, b2] =>
    [alphaChar (b1 / 4), alphaChar (b1 % 4 * 16 + b2 / 16),
     alphaChar (b2 % 16 * 4), '=']
  | b1 :: b2 :: b3 :: rest =>
    alphaChar (b1 / 4) :: alphaChar (b1 % 4 * 16 + b2 / 16) ::
    alphaChar (b2 % 16 * 4 + b3 / 64) :: alphaChar (b3 % 64) ::
    b64encode rest

/-- State of the `binascii.a2b_base64` scanner: position inside the
current 4-character quad, the bits carried over from the previous
character, the number of pad characters of the pending pad run, the
bytes emitted so far, and whether a complete pad sequence has ended the
scan (the C code jumps to its `done` label and ignores the rest). -/
structure A2B where
  quadPos : Nat
  leftchar : Nat
  pads : Nat
  out : List Nat
  stopped : Bool
  deriving DecidableEq, Repr

/-- One step of `binascii.a2b_base64` (non-strict mode) on one character:
`=` advances the pad run and, once the quad is complete, stops the scan;
characters outside the alphabet are skipped; alphabet characters feed the
4-to-3 decoder. -/
def a2bStep (st : A2B) (c : Char) : A2B :=
  if st.stopped then st
  else if c = '=' then
    if 2 ≤ st.quadPos ∧ 4 ≤ st.quadPos + (st.pads + 1) then
      { st with stopped := true }
    else if 2 ≤ st.quadPos then { st with pads := st.pads + 1 }
    else st
  else
    match b64Index c with
    | none => st
    | some v =>
      match st.quadPos with
      | 0 => { st with quadPos := 1, leftchar := v, pads := 0 }
      | 1 => { st with
                quadPos := 2, leftchar := v % 16, pads := 0,
                out := st.out ++ [st.leftchar * 4 + v / 16] }
      | 2 => { st with
                quadPos := 3, leftchar := v % 4, pads := 0,
                out := st.out ++ [st.leftchar * 16 + v / 4] }
      | _ => { st with
                quadPos := 0, leftchar := 0, pads := 0,
                out := st.out ++ [st.leftchar * 64 + v] }

/-- End of the `binascii.a2b_base64` scan: if a complete pad sequence
stopped the scan the output is returned; otherwise a quad left dangling
(1, 2 or 3 data characters) is a `binascii.Error`. -/
def a2bFinish (st : A2B) : Except PyErr (List Nat) :=
  if st.stopped then .ok st.out
  else
    match st.quadPos with
    | 0 => .ok st.out
    | _ => .error .binasciiError

/-- Model of `binascii.a2b_base64` in non-strict mode. -/
def a2b_base64 (s : List Char) : Except PyErr (List Nat) :=
  a2bFinish (s.foldl a2bStep ⟨0, 0, 0, [], false⟩)

instance exceptDecEq {ε α : Type} [DecidableEq ε] [DecidableEq α] :
    DecidableEq (Except ε α) := fun x y =>
  match x, y with
  | .ok a, .ok b =>
    if h : a = b then isTrue (by rw [h])
    else isFalse (by intro hc; injection hc; exact h ‹_›)
  | .error e, .error f =>
    if h : e = f then isTrue (by rw [h])
    else isFalse (by intro hc; injection hc; exact h ‹_›)
  | .ok _, .error _ => isFalse (by intro hc; exact Except.noConfusion hc)
  | .error _, .ok _ => isFalse (by intro hc; exact Except.noConfusion hc)

/-- Model of `base64.b64decode` on a string: reject non-ASCII input (the
ASCII-encoding step of `_bytes_from_decode_data`), then run
`binascii.a2b_base64`. -/
def b64decode (s : List Char) : Except PyErr (List Nat) :=
  if s.all (fun c => c.toNat < 128) then a2b_base64 s
  else .error .nonAscii

/-- Result of `input_to_file`: a buffer, or a buffer plus the
reconstructed metadata string, depending on the `metadata` flag. -/
inductive FileOut where
  | bufOnly (f : BytesIO)
  | bufMeta (f : BytesIO) (meta : List Char)
  deriving DecidableEq, Repr

/-- Model of `input_to_file` from `general_utils.py`:
check that `";base64,"` occurs in the input (else the InvalidFormat
ValueError); split on the separator and unpack into exactly two parts
(a ValueError escapes if the separator occurs more than once);
base64-decode the body into a fresh buffer; rebuild the metadata string
as `meta ++ ";base64,"`. -/
def input_to_file (inputFile : List Char) (metadata : Bool) :
    Except PyErr FileOut :=
  if containsSub sepChars inputFile then
    match pySplit sepChars inputFile with
    | [meta, data] =>
      match b64decode data with
      | .ok bytes =>
        let fileData : BytesIO := ⟨bytes, 0⟩
        let metaData := meta ++ sepChars
        .ok (if metadata then .bufMeta fileData metaData
             else .bufOnly fileData)
      | .error e => .error e
    | _ => .error .unpackMismatch
  else .error .invalidFormat

/-- Greedy match of `.*` followed by the literal `";base64,"` against `t`
(no `re.DOTALL`, so `.` excludes the newline): the longest `g` with
`t = g ++ sepChars ++ r` such that `g` contains no newline; `none` when
no such decomposition exists. Consuming one more character is always
preferred, which is exactly the backtracking order of the regex engine,
and any decomposition consuming the current character is longer than the
empty one. -/
def dotStarSep : List Char → Option (List Char)
  | [] => none
  | c :: rest =>
    if c = '\n' then
      if startsWith sepChars (c :: rest) then some [] else none
    else
      match dotStarSep rest with
      | some g => some (c :: g)
      | none => if startsWith sepChars (c :: rest) then some [] else none

/-- Greedy match of `(.+);base64,` against `t`: at least one non-newline
character, then the remainder matched greedily by `dotStarSep`. -/
def dotPlusSep : List Char → Option (List Char)
  | [] => none
  | d :: rest => if d = '\n' then none else (dotStarSep rest).map (d :: ·)

/-- Model of `re.search(r"/(.+);base64,", s)`, returning group 1: scan for the
leftmost `/` at which `(.+);base64,` matches the remainder, and return
the greedy (longest) group. -/
def searchGroup : List Char → Option (List Char)
  | [] => none
  | c :: rest =>
    if c = '/' then
      match dotPlusSep rest with
      | some g => some g
      | none => searchGroup rest
    else searchGroup rest

/-- The one aliased MIME subtype of `metadata_to_filetype`. -/
def xlsxMime : List Char :=
  ("vnd.openxmlformats-officedocument.spreadsheetml.sheet").toList

/-- Model of `metadata_to_filetype` from `general_utils.py`:
`match = re.search(r"/(.+);base64,", metadata)`; the file type is
`match[1]` if a match exists, else `""`; finally the single hardcoded
alias maps the Excel Open XML spreadsheet subtype to `"xlsx"`. -/
def metadata_to_filetype (metadata : List Char) : List Char :=
  let fileType := (searchGroup metadata).getD []
  if fileType = xlsxMime then ("xlsx").toList else fileType

/-- The pandas `ParserError` raised by `file_to_dataframe` when neither
parser succeeds. -/
inductive PandasErr where
  | parserError
  deriving DecidableEq, Repr

/-- Model of `file_to_dataframe` from `spreadsheet_utils.py`.  The two pandas
parsers (`pd.read_csv` and `pd.read_excel(..., engine="openpyxl")`) are
third-party code, so they are taken as function parameters returning
`Except`; `δ` is the (abstract) type of dataframes.  The body mirrors
the nested `try`/`except Exception` blocks: try CSV; on any failure try
Excel; if that also fails raise
`pd.errors.ParserError("File Type Not Supported")`. -/
def file_to_dataframe {δ ε₁ ε₂ : Type}
    (read_csv : BytesIO → Except ε₁ δ)
    (read_excel : BytesIO → Except ε₂ δ)
    (file : BytesIO) : Except PandasErr δ :=
  match read_csv file with
  | .ok df => .ok df
  | .error _ =>
    match read_excel file with
    | .ok df => .ok df
    | .error _ => .error .parserError

/-- Outcome recorded by the logging calls in `send_gmail`. -/
inductive LogLevel where
  | info
  | err
  deriving DecidableEq, Repr

/-- Python `sep.join(parts)`. -/
def joinSep (sep : List Char) : List (List Char) → List Char
  | [] => []
  | [x] => x
  | x :: xs => x ++ sep ++ joinSep sep xs

/-- The body built by `send_gmail`: for each row of `values`, the
stringified entries joined by `", "`, followed by a newline. -/
def buildEmailBody (values : List (List (List Char))) : List Char :=
  values.foldl (fun body row => body ++ joinSep (", ").toList row ++ ['\n']) []

/-- Model of `send_gmail` from `quiz_utils.py`.  The SMTP session
(`SMTP_SSL`/`login`/`sendmail`, third-party and network-facing) is taken
as a fallible function parameter `attempt` over an abstract exception
type `ε`.  The whole attempt sits inside `try`/`except Exception`, so
the embedded function is total: success logs at info level, any failure
is caught and logged at error level, and the function returns normally
either way (Python returns `None`). -/
def send_gmail {ε : Type} (values : List (List (List Char)))
    (attempt : List Char → Except ε Unit) : LogLevel :=
  match attempt (buildEmailBody values) with
  | .ok _ => .info
  | .error _ => .err

/-- A Python value passed as the `text` argument of `string_to_file`:
either a string or something that is not a string. -/
inductive PyVal where
  | str (s : List Char)
  | nonStr
  deriving DecidableEq, Repr

/-- UTF-8 encoding of one Unicode scalar value (Python `str.encode()`). -/
def utf8Char (c : Char) : List Nat :=
  let n := c.toNat
  if n < 128 then [n]
  else if n < 2048 then [192 + n / 64, 128 + n % 64]
  else if n < 65536 then
    [224 + n / 4096, 128 + n / 64 % 64, 128 + n % 64]
  else
    [240 + n / 262144, 128 + n / 4096 % 64, 128 + n / 64 % 64, 128 + n % 64]

/-- UTF-8 encoding of a string (Python `str.encode()`). -/
def utf8Encode (s : List Char) : List Nat :=
  (s.map utf8Char).flatten

/-- The literal `".txt"`. -/
def txtExt : List Char := ['.', 't', 'x', 't']

/-- The filename preprocessing of `string_to_file`:
`if filename.endswith(".txt"): filename = filename[:-4]` — strip one
trailing `".txt"` if present. -/
def processFilename (filename : List Char) : List Char :=
  if endsWithL txtExt filename then List.take (filename.length - 4) filename
  else filename

/-- The ASCII apostrophe, written by code point to keep it out of string
literals. -/
def quoteChar : Char := Char.ofNat 39

/-- Model of `string_to_file` from `text_utils.py`: reject non-string text with a
`TypeError`; strip one trailing `".txt"` from the filename; base64-encode
the UTF-8 bytes of the text; return the download anchor
an anchor tag whose href is the data URI and whose download attribute is
the processed filename followed by `.txt`. -/
def string_to_file (text : PyVal) (filename download_text : List Char) :
    Except PyErr (List Char) :=
  match text with
  | .str t =>
    let fn := processFilename filename
    let encodedText := b64encode (utf8Encode t)
    let encodedFile := ("data:text/plain;base64,").toList ++ encodedText
    .ok (("<a href=").toList ++ [quoteChar] ++ encodedFile ++ [quoteChar] ++
         (" download=").toList ++ [quoteChar] ++ fn ++ txtExt ++ [quoteChar] ++
         (">").toList ++ download_text ++ ("</a>").toList)
  | .nonStr => .error .typeError

/-! ## Helper lemmas about the separator scan and `str.split` -/

theorem startsWith_self_append (pat s : List Char) :
    startsWith pat (pat ++ s) = true := by
  induction pat with
  | nil => rfl
  | cons p ps ih => simp [startsWith, ih]

/-- The separator `";base64,"` has no border (no proper prefix equals a
suffix), so a match of the separator that begins inside `c :: ms` and
spills into a following copy of the separator forces a match inside
`c :: ms` itself. -/
theorem startsWith_straddle (c : Char) (ms r : List Char)
    (h : startsWith sepChars (c :: (ms ++ (sepChars ++ r))) = true) :
    startsWith sepChars (c :: ms) = true := by
  match ms with
  | [] => simp [startsWith, sepChars] at h
  | [a1] => simp [startsWith, sepChars] at h
  | [a1, a2] => simp [startsWith, sepChars] at h
  | [a1, a2, a3] => simp [startsWith, sepChars] at h
  | [a1, a2, a3, a4] => simp [startsWith, sepChars] at h
  | [a1, a2, a3, a4, a5] => simp [startsWith, sepChars] at h
  | [a1, a2, a3, a4, a5, a6] => simp [startsWith, sepChars] at h
  | a1 :: a2 :: a3 :: a4 :: a5 :: a6 :: a7 :: ms' =>
    simp only [List.cons_append, List.append_assoc] at h
    simp [startsWith, sepChars] at h ⊢
    exact h

theorem containsSub_append_sep (meta rest : List Char) :
    containsSub sepChars (meta ++ (sepChars ++ rest)) = true := by
  induction meta with
  | nil =>
    simp only [List.nil_append]
    show containsSub sepChars (sepChars ++ rest) = true
    simp [sepChars, containsSub, startsWith]
  | cons m ms ih =>
    simp only [List.cons_append]
    simp [containsSub, ih]

theorem pySplitGo_nosep (sep : List Char) (s : List Char) :
    ∀ (fuel : Nat) (acc : List Char), s.length ≤ fuel →
      containsSub sep s = false →
      pySplitGo sep fuel acc s = [acc.reverse ++ s] := by
  induction s with
  | nil =>
    intro fuel acc _ _
    cases fuel <;> simp [pySplitGo]
  | cons c rest ih =>
    intro fuel acc hf h
    simp only [containsSub, Bool.or_eq_false_iff] at h
    obtain ⟨f, rfl⟩ : ∃ f, fuel = f + 1 := by
      cases fuel
      · simp at hf
      · exact ⟨_, rfl⟩
    rw [pySplitGo, if_neg (by simp [h.1])]
    rw [ih f (c :: acc) (by simpa using hf) h.2]
    simp

theorem pySplitGo_sep_append (meta : List Char) :
    ∀ (fuel : Nat) (acc rest : List Char),
      (meta ++ (sepChars ++ rest)).length ≤ fuel →
      containsSub sepChars meta = false →
      containsSub sepChars rest = false →
      pySplitGo sepChars fuel acc (meta ++ (sepChars ++ rest)) =
        [acc.reverse ++ meta, rest] := by
  induction meta with
  | nil =>
    intro fuel acc rest hf _ hr
    obtain ⟨f, rfl⟩ : ∃ f, fuel = f + 1 := by
      cases fuel
      · simp [sepChars] at hf
      · exact ⟨_, rfl⟩
    simp only [List.nil_append] at hf ⊢
    have hsw : startsWith sepChars (sepChars ++ rest) = true :=
      startsWith_self_append sepChars rest
    have hstep : pySplitGo sepChars (f + 1) acc (sepChars ++ rest) =
        acc.reverse :: pySplitGo sepChars f []
          (List.drop sepChars.length (sepChars ++ rest)) := by
      conv_lhs => rw [show sepChars ++ rest = ';' ::
        (['b', 'a', 's', 'e', '6', '4', ','] ++ rest) by simp [sepChars]]
      rw [pySplitGo, if_pos (by simpa [sepChars] using hsw)]
      simp [sepChars]
    rw [hstep]
    have hdrop : List.drop sepChars.length (sepChars ++ rest) = rest := by
      simp [sepChars]
    rw [hdrop, pySplitGo_nosep sepChars rest f []
      (by simp [sepChars] at hf; omega) hr]
    simp
  | cons m ms ih =>
    intro fuel acc rest hf hm hr
    simp only [containsSub, Bool.or_eq_false_iff] at hm
    obtain ⟨f, rfl⟩ : ∃ f, fuel = f + 1 := by
      cases fuel
      · simp at hf
      · exact ⟨_, rfl⟩
    simp only [List.cons_append]
    rw [pySplitGo]
    rw [if_neg (by
      intro hsw
      have := startsWith_straddle m ms rest hsw
      simp [this] at hm)]
    rw [ih f (m :: acc) rest (by simpa using hf) hm.2 hr]
    simp

/-- Python `split` on a string containing exactly one copy of the
separator: two parts, cut at the separator. -/
theorem pySplit_single (meta rest : List Char)
    (hm : containsSub sepChars meta = false)
    (hr : containsSub sepChars rest = false) :
    pySplit sepChars (meta ++ (sepChars ++ rest)) = [meta, rest] := by
  unfold pySplit
  rw [pySplitGo_sep_append meta _ [] rest le_rfl hm hr]
  simp

/-! ## Helper lemmas about base64 encoding and decoding -/

theorem b64Index_alpha : ∀ v, v < 64 → b64Index (alphaChar v) = some v := by
  decide

theorem alphaChar_ne_pad : ∀ v, v < 64 → alphaChar v ≠ '=' := by decide

theorem alphaChar_ascii : ∀ v, v < 64 → (alphaChar v).toNat < 128 := by decide

theorem alphaChar_ne_semicolon : ∀ v, v < 64 → alphaChar v ≠ ';' := by decide

theorem a2bStep_alpha_q0 (v lc p : Nat) (out : List Nat) (hv : v < 64) :
    a2bStep ⟨0, lc, p, out, false⟩ (alphaChar v) = ⟨1, v, 0, out, false⟩ := by
  simp [a2bStep, alphaChar_ne_pad v hv, b64Index_alpha v hv]

theorem a2bStep_alpha_q1 (v lc p : Nat) (out : List Nat) (hv : v < 64) :
    a2bStep ⟨1, lc, p, out, false⟩ (alphaChar v) =
      ⟨2, v % 16, 0, out ++ [lc * 4 + v / 16], false⟩ := by
  simp [a2bStep, alphaChar_ne_pad v hv, b64Index_alpha v hv]

theorem a2bStep_alpha_q2 (v lc p : Nat) (out : List Nat) (hv : v < 64) :
    a2bStep ⟨2, lc, p, out, false⟩ (alphaChar v) =
      ⟨3, v % 4, 0, out ++ [lc * 16 + v / 4], false⟩ := by
  simp [a2bStep, alphaChar_ne_pad v hv, b64Index_alpha v hv]

theorem a2bStep_alpha_q3 (v lc p : Nat) (out : List Nat) (hv : v < 64) :
    a2bStep ⟨3, lc, p, out, false⟩ (alphaChar v) =
      ⟨0, 0, 0, out ++ [lc * 64 + v], false⟩ := by
  simp [a2bStep, alphaChar_ne_pad v hv, b64Index_alpha v hv]

theorem a2bStep_pad2_first (lc : Nat) (out : List Nat) :
    a2bStep ⟨2, lc, 0, out, false⟩ '=' = ⟨2, lc, 1, out, false⟩ := by
  simp [a2bStep]

theorem a2bStep_pad2_second (lc : Nat) (out : List Nat) :
    a2bStep ⟨2, lc, 1, out, false⟩ '=' = ⟨2, lc, 1, out, true⟩ := by
  simp [a2bStep]

theorem a2bStep_pad3 (lc : Nat) (out : List Nat) :
    a2bStep ⟨3, lc, 0, out, false⟩ '=' = ⟨3, lc, 0, out, true⟩ := by
  simp [a2bStep]

/-- Running the `a2b_base64` scanner over the canonical encoding of a
byte list appends exactly those bytes to the output. -/
theorem a2b_encode : ∀ (B : List Nat), (∀ b ∈ B, b < 256) →
    ∀ out : List Nat,
      a2bFinish ((b64encode B).foldl a2bStep ⟨0, 0, 0, out, false⟩) =
        .ok (out ++ B)
  | [], _, out => by simp [b64encode, a2bFinish]
  | [b1], hB, out => by
    have h1 : b1 < 256 := hB b1 (by simp)
    simp only [b64encode, List.foldl_cons, List.foldl_nil]
    rw [a2bStep_alpha_q0 _ _ _ _ (by omega), a2bStep_alpha_q1 _ _ _ _ (by omega),
        a2bStep_pad2_first, a2bStep_pad2_second]
    have hx : b1 / 4 * 4 + b1 % 4 * 16 / 16 = b1 := by omega
    rw [hx]
    simp [a2bFinish]
  | [b1, b2], hB, out => by
    have h1 : b1 < 256 := hB b1 (by simp)
    have h2 : b2 < 256 := hB b2 (by simp)
    simp only [b64encode, List.foldl_cons, List.foldl_nil]
    rw [a2bStep_alpha_q0 _ _ _ _ (by omega), a2bStep_alpha_q1 _ _ _ _ (by omega),
        a2bStep_alpha_q2 _ _ _ _ (by omega), a2bStep_pad3]
    have hx1 : b1 / 4 * 4 + (b1 % 4 * 16 + b2 / 16) / 16 = b1 := by omega
    have hx2 : (b1 % 4 * 16 + b2 / 16) % 16 * 16 + b2 % 16 * 4 / 4 = b2 := by
      omega
    rw [hx1, hx2]
    simp [a2bFinish]
  | b1 :: b2 :: b3 :: rest, hB, out => by
    have h1 : b1 < 256 := hB b1 (by simp)
    have h2 : b2 < 256 := hB b2 (by simp)
    have h3 : b3 < 256 := hB b3 (by simp)
    simp only [b64encode, List.foldl_cons]
    rw [a2bStep_alpha_q0 _ _ _ _ (by omega), a2bStep_alpha_q1 _ _ _ _ (by omega),
        a2bStep_alpha_q2 _ _ _ _ (by omega), a2bStep_alpha_q3 _ _ _ _ (by omega)]
    have hx1 : b1 / 4 * 4 + (b1 % 4 * 16 + b2 / 16) / 16 = b1 := by omega
    have hx2 : (b1 % 4 * 16 + b2 / 16) % 16 * 16 +
        (b2 % 16 * 4 + b3 / 64) / 4 = b2 := by omega
    have hx3 : (b2 % 16 * 4 + b3 / 64) % 4 * 64 + b3 % 64 = b3 := by omega
    rw [hx1, hx2, hx3]
    have ih := a2b_encode rest (fun b hb => hB b (by simp [hb]))
      (out ++ [b1] ++ [b2] ++ [b3])
    rw [ih]
    simp

/-- Every character of a canonical base64 encoding is ASCII and is not a
semicolon (so the encoding cannot contain the separator). -/
theorem b64encode_chars : ∀ (B : List Nat), (∀ b ∈ B, b < 256) →
    ∀ c ∈ b64encode B, c.toNat < 128 ∧ c ≠ ';'
  | [], _, c, hc => by simp [b64encode] at hc
  | [b1], hB, c, hc => by
    have h1 : b1 < 256 := hB b1 (by simp)
    simp only [b64encode, List.mem_cons, List.not_mem_nil, or_false] at hc
    rcases hc with rfl | rfl | rfl | rfl
    · exact ⟨alphaChar_ascii _ (by omega), alphaChar_ne_semicolon _ (by omega)⟩
    · exact ⟨alphaChar_ascii _ (by omega), alphaChar_ne_semicolon _ (by omega)⟩
    · exact ⟨by decide, by decide⟩
    · exact ⟨by decide, by decide⟩
  | [b1, b2], hB, c, hc => by
    have h1 : b1 < 256 := hB b1 (by simp)
    have h2 : b2 < 256 := hB b2 (by simp)
    simp only [b64encode, List.mem_cons, List.not_mem_nil, or_false] at hc
    rcases hc with rfl | rfl | rfl | rfl
    · exact ⟨alphaChar_ascii _ (by omega), alphaChar_ne_semicolon _ (by omega)⟩
    · exact ⟨alphaChar_ascii _ (by omega), alphaChar_ne_semicolon _ (by omega)⟩
    · exact ⟨alphaChar_ascii _ (by omega), alphaChar_ne_semicolon _ (by omega)⟩
    · exact ⟨by decide, by decide⟩
  | b1 :: b2 :: b3 :: rest, hB, c, hc => by
    have h1 : b1 < 256 := hB b1 (by simp)
    have h2 : b2 < 256 := hB b2 (by simp)
    have h3 : b3 < 256 := hB b3 (by simp)
    simp only [b64encode, List.mem_cons] at hc
    rcases hc with rfl | rfl | rfl | rfl | hc
    · exact ⟨alphaChar_ascii _ (by omega), alphaChar_ne_semicolon _ (by omega)⟩
    · exact ⟨alphaChar_ascii _ (by omega), alphaChar_ne_semicolon _ (by omega)⟩
    · exact ⟨alphaChar_ascii _ (by omega), alphaChar_ne_semicolon _ (by omega)⟩
    · exact ⟨alphaChar_ascii _ (by omega), alphaChar_ne_semicolon _ (by omega)⟩
    · exact b64encode_chars rest (fun b hb => hB b (by simp [hb])) c hc

/-- Decoding a canonical base64 encoding recovers the bytes exactly. -/
theorem b64decode_b64encode (B : List Nat) (hB : ∀ b ∈ B, b < 256) :
    b64decode (b64encode B) = .ok B := by
  unfold b64decode
  rw [if_pos]
  · unfold a2b_base64
    have h := a2b_encode B hB []
    simpa using h
  · rw [List.all_eq_true]
    intro c hc
    simpa using (b64encode_chars B hB c hc).1

theorem startsWith_sep_of_ne (c : Char) (cs : List Char) (h : c ≠ ';') :
    startsWith sepChars (c :: cs) = false := by
  simp [startsWith, sepChars]
  intro h'
  exact absurd h'.symm h

theorem containsSub_of_no_semicolon (s : List Char)
    (h : ∀ c ∈ s, c ≠ ';') : containsSub sepChars s = false := by
  induction s with
  | nil => rfl
  | cons c rest ih =>
    simp only [containsSub, Bool.or_eq_false_iff]
    exact ⟨startsWith_sep_of_ne c rest (h c (by simp)),
           ih (fun x hx => h x (by simp [hx]))⟩

theorem b64encode_no_sep (B : List Nat) (hB : ∀ b ∈ B, b < 256) :
    containsSub sepChars (b64encode B) = false :=
  containsSub_of_no_semicolon _ (fun c hc => (b64encode_chars B hB c hc).2)

/-- Full evaluation of `input_to_file` on a payload containing exactly
one copy of the separator. -/
theorem input_to_file_eval (meta body : List Char)
    (hm : containsSub sepChars meta = false)
    (hb : containsSub sepChars body = false) (flag : Bool) :
    input_to_file (meta ++ (sepChars ++ body)) flag =
      match b64decode body with
      | .ok bytes =>
        .ok (if flag then .bufMeta ⟨bytes, 0⟩ (meta ++ sepChars)
             else .bufOnly ⟨bytes, 0⟩)
      | .error e => .error e := by
  unfold input_to_file
  rw [if_pos (containsSub_append_sep meta body), pySplit_single meta body hm hb]

/-! ## Helper lemmas about the metadata regex -/

theorem dotStarSep_append (g : List Char) (hg : '\n' ∉ g) :
    dotStarSep (g ++ sepChars) = some g := by
  induction g with
  | nil => decide
  | cons c g' ih =>
    simp only [List.mem_cons, not_or] at hg
    have hc : c ≠ '\n' := fun h => hg.1 h.symm
    simp only [List.cons_append, dotStarSep, if_neg hc, List.append_eq]
    rw [ih hg.2]

theorem dotPlusSep_append (g : List Char) (hg : '\n' ∉ g) (hne : g ≠ []) :
    dotPlusSep (g ++ sepChars) = some g := by
  match g, hne with
  | d :: g', _ =>
    simp only [List.mem_cons, not_or] at hg
    have hd : d ≠ '\n' := fun h => hg.1 h.symm
    simp only [List.cons_append, dotPlusSep, if_neg hd,
      dotStarSep_append g' hg.2, Option.map_some']

theorem searchGroup_append (a g : List Char) (ha : '/' ∉ a)
    (hg : '\n' ∉ g) (hne : g ≠ []) :
    searchGroup (a ++ '/' :: (g ++ sepChars)) = some g := by
  induction a with
  | nil =>
    simp [searchGroup, dotPlusSep_append g hg hne]
  | cons c a' ih =>
    simp only [List.mem_cons, not_or] at ha
    have hc : c ≠ '/' := fun h => ha.1 h.symm
    simp only [List.cons_append, searchGroup, if_neg hc]
    exact ih ha.2

theorem dotStarSep_none (s : List Char)
    (h : containsSub sepChars s = false) : dotStarSep s = none := by
  induction s with
  | nil => rfl
  | cons c rest ih =>
    simp only [containsSub, Bool.or_eq_false_iff] at h
    obtain ⟨h1, h2⟩ := h
    by_cases hc : c = '\n'
    · subst hc; simp [dotStarSep, ih h2, h1]
    · simp [dotStarSep, hc, ih h2, h1]

theorem dotPlusSep_none (s : List Char)
    (h : containsSub sepChars s = false) : dotPlusSep s = none := by
  cases s with
  | nil => rfl
  | cons d rest =>
    simp only [containsSub, Bool.or_eq_false_iff] at h
    by_cases hd : d = '\n' <;> simp [dotPlusSep, hd, dotStarSep_none rest h.2]

theorem searchGroup_none_of_no_sep (s : List Char)
    (h : containsSub sepChars s = false) : searchGroup s = none := by
  induction s with
  | nil => rfl
  | cons c rest ih =>
    simp only [containsSub, Bool.or_eq_false_iff] at h
    by_cases hc : c = '/' <;>
      simp [searchGroup, hc, dotPlusSep_none rest h.2, ih h.2]

theorem searchGroup_none_of_no_slash (s : List Char)
    (h : '/' ∉ s) : searchGroup s = none := by
  induction s with
  | nil => rfl
  | cons c rest ih =>
    simp only [List.mem_cons, not_or] at h
    have hc : c ≠ '/' := fun hx => h.1 hx.symm
    simp [searchGroup, hc, ih h.2]

theorem endsWithL_append (pat s : List Char) :
    endsWithL pat (s ++ pat) = true := by
  unfold endsWithL
  rw [List.reverse_append]
  exact startsWith_self_append _ _

example : pySplit sepChars ("data:image/png;base64,iVBOR").toList
    = [("data:image/png").toList, "iVBOR".toList] := by decide

example : b64encode [77, 97, 110] = "TWFu".toList := by decide

example : b64decode ("TWFu").toList = .ok [77, 97, 110] := by decide

example : b64decode ("aGk=").toList = .ok [104, 105] := by decide

example : b64decode ("aGk").toList = .error .binasciiError := by decide

example : b64decode ("++==").toList = .ok [251] := by decide

example : metadata_to_filetype ("data:image/jpeg;base64,").toList
    = ("jpeg").toList := by decide

example : metadata_to_filetype ("data:a/b/c;base64,").toList
    = ("b/c").toList := by decide

example : metadata_to_filetype ("no match here").toList = [] := by decide

example : input_to_file ("data:text/plain;base64,aGk=").toList true
    = .ok (.bufMeta ⟨[104, 105], 0⟩ ("data:text/plain;base64,").toList) := by
  decide

/-! ## Claim theorems -/

/-- Every exception escaping `base64.b64decode` is a `ValueError`
(`binascii.Error` is a subclass of `ValueError`). -/
theorem b64decode_error_ve (s : List Char) (e : PyErr)
    (h : b64decode s = .error e) : isValueError e = true := by
  unfold b64decode a2b_base64 a2bFinish at h
  split at h
  · split at h
    · exact absurd h (by simp)
    · split at h
      · exact absurd h (by simp)
      · injection h with he
        subst he
        decide
  · injection h with he
    subst he
    decide

/-- C1 (counterexample): the round-trip claim fails as stated, because it
quantifies over every prefix.  The string
`"a;base64,QQ==" + ";base64," + b64([65])` is of the form
`prefix + ";base64," + b64(B)`, yet `input_to_file` raises a
`ValueError` (the split yields three parts and the tuple unpacking
fails) instead of returning a buffer holding `[65]`. -/
theorem input_to_file_roundtrip_cx :
    input_to_file
      (("a;base64,QQ==").toList ++ (sepChars ++ b64encode [65])) true
      = .error .unpackMismatch := by decide

/-- C1 (amended): for every prefix that does not itself contain
`";base64,"` and every byte list `B`, decoding
`prefix + ";base64," + b64(B)` returns a fresh buffer whose contents are
exactly `B`, positioned at its start (`pos = 0`), for both settings of
the metadata flag. -/
theorem input_to_file_roundtrip (p : List Char) (B : List Nat)
    (hp : containsSub sepChars p = false) (hB : ∀ b ∈ B, b < 256) :
    input_to_file (p ++ (sepChars ++ b64encode B)) true
        = .ok (.bufMeta ⟨B, 0⟩ (p ++ sepChars)) ∧
    input_to_file (p ++ (sepChars ++ b64encode B)) false
        = .ok (.bufOnly ⟨B, 0⟩) := by
  have hbody := b64encode_no_sep B hB
  have h1 := input_to_file_eval p (b64encode B) hp hbody true
  have h2 := input_to_file_eval p (b64encode B) hp hbody false
  rw [b64decode_b64encode B hB] at h1 h2
  exact ⟨by simpa using h1, by simpa using h2⟩

/-- C1 (witness): the amended round trip evaluated at
`prefix = "data:image/png"` and `B = [0, 1, 255]`. -/
theorem input_to_file_roundtrip_witness :
    input_to_file
      (("data:image/png").toList ++ (sepChars ++ b64encode [0, 1, 255])) true
      = .ok (.bufMeta ⟨[0, 1, 255], 0⟩ (("data:image/png").toList ++ sepChars)) :=
  (input_to_file_roundtrip (("data:image/png").toList) [0, 1, 255]
    (by decide) (by decide)).1

/-- C2 (counterexample): the "if and only if" fails.  The input
`"a;base64,b;base64,c"` does contain `";base64,"`, yet `input_to_file`
still raises a `ValueError` (three parts, tuple unpacking fails). -/
theorem input_to_file_valueerror_iff_cx :
    containsSub sepChars (("a;base64,b;base64,c").toList) = true ∧
    input_to_file (("a;base64,b;base64,c").toList) false
      = .error .unpackMismatch ∧
    isValueError .unpackMismatch = true := by decide

/-- C2 (amended): if the input lacks `";base64,"`, `input_to_file` raises
the `InvalidFormat` `ValueError` (and, raising, returns no buffer: the
result is an `error`, not an `ok`); conversely, whenever `input_to_file`
raises, the exception is a `ValueError`, but a raise can also happen with
the separator present (separator repeated, or body not valid base64), so
the missing separator is not the only raising case. -/
theorem input_to_file_error_spec :
    (∀ (s : List Char) (flag : Bool), containsSub sepChars s = false →
        input_to_file s flag = .error .invalidFormat) ∧
    (∀ (s : List Char) (flag : Bool) (e : PyErr),
        input_to_file s flag = .error e → isValueError e = true) := by
  constructor
  · intro s flag h
    simp [input_to_file, h]
  · intro s flag e h
    unfold input_to_file at h
    split at h
    · split at h
      · rename_i data heq
        split at h
        · exact absurd h (by simp)
        · rename_i e' heq'
          injection h with he
          subst he
          exact b64decode_error_ve _ _ heq'
      · injection h with he
        subst he
        decide
    · injection h with he
      subst he
      decide

/-- C2 (witness): a string without the separator yields the
`InvalidFormat` error. -/
theorem input_to_file_error_spec_witness :
    input_to_file (("hello").toList) false = .error .invalidFormat :=
  input_to_file_error_spec.1 (("hello").toList) false (by decide)

/-- C3 (counterexample): with the separator occurring twice, the claim
says the code splits at the first occurrence and returns a result, but
`str.split` with no maxsplit cuts at every occurrence: the unpacking of
three parts into two names raises a `ValueError` instead. -/
theorem input_to_file_split_first_cx :
    containsSub sepChars (("data:x;base64,AA==;base64,AA==").toList) = true ∧
    input_to_file (("data:x;base64,AA==;base64,AA==").toList) true
      = .error .unpackMismatch := by decide

/-- C3 (amended): when the separator occurs exactly once (neither the
part before it nor the part after it contains another copy),
`input_to_file` splits there into `metadata_prefix` and `body`,
base64-decodes the body (decode failures propagate), and, with metadata
requested, returns the reconstructed `metadata_prefix ++ ";base64,"`;
when the separator occurs more than once, a `ValueError` is raised
instead (see the counterexample). -/
theorem input_to_file_split_single (meta body : List Char)
    (hm : containsSub sepChars meta = false)
    (hb : containsSub sepChars body = false) :
    input_to_file (meta ++ (sepChars ++ body)) true =
      (b64decode body).map
        (fun bytes => FileOut.bufMeta ⟨bytes, 0⟩ (meta ++ sepChars)) := by
  rw [input_to_file_eval meta body hm hb true]
  cases h : b64decode body <;> simp [Except.map]

/-- C3 (witness): the amended split evaluated at
`meta = "data:text/csv"`, `body = "dGVzdA=="`. -/
theorem input_to_file_split_single_witness :
    input_to_file (("data:text/csv").toList ++ (sepChars ++ ("dGVzdA==").toList))
        true =
      (b64decode (("dGVzdA==").toList)).map
        (fun bytes =>
          FileOut.bufMeta ⟨bytes, 0⟩ (("data:text/csv").toList ++ sepChars)) :=
  input_to_file_split_single (("data:text/csv").toList) (("dGVzdA==").toList)
    (by decide) (by decide)

/-- C4 (counterexample): on `"data:a/b/c;base64,"` the regex
`/(.+);base64,` matches from the FIRST `/` (greedily up to the marker),
so the extracted label is `"b/c"`, which contains a `/` — not `"c"`, the
text after the last `/`, as the claim states. -/
theorem metadata_subtype_cx :
    metadata_to_filetype (("data:a/b/c;base64,").toList) = ("b/c").toList ∧
    '/' ∈ metadata_to_filetype (("data:a/b/c;base64,").toList) ∧
    ("b/c").toList ≠ ("c").toList := by decide

/-- C4 (amended): `metadata_to_filetype` extracts as the subtype the text
between the first `/` (that is followed by a later `";base64,"`) and the
last `";base64,"` marker: for a metadata string
`a ++ "/" ++ g ++ ";base64,"` with no `/` in `a`, no newline in `g` and
`g` nonempty, the extracted group is exactly `g` — which may itself
contain `/` when several slashes precede the marker. -/
theorem metadata_subtype_extract (a g : List Char) (ha : '/' ∉ a)
    (hg : '\n' ∉ g) (hne : g ≠ []) :
    searchGroup (a ++ '/' :: (g ++ sepChars)) = some g ∧
    metadata_to_filetype (a ++ '/' :: (g ++ sepChars)) =
      (if g = xlsxMime then ("xlsx").toList else g) := by
  have hs := searchGroup_append a g ha hg hne
  exact ⟨hs, by simp [metadata_to_filetype, hs]⟩

/-- C4 (witness): the amended extraction evaluated at `a = "data:a"`,
`g = "b/c"`. -/
theorem metadata_subtype_extract_witness :
    searchGroup (("data:a").toList ++ '/' :: (("b/c").toList ++ sepChars))
      = some (("b/c").toList) ∧
    metadata_to_filetype (("data:a").toList ++ '/' :: (("b/c").toList ++ sepChars))
      = (if ("b/c").toList = xlsxMime then ("xlsx").toList
         else ("b/c").toList) :=
  metadata_subtype_extract (("data:a").toList) (("b/c").toList)
    (by decide) (by decide) (by decide)

/-- C5: `metadata_to_filetype` applies exactly one normalization rule:
an extracted subtype equal to the Excel Open XML spreadsheet subtype
becomes `"xlsx"`, every other extracted subtype is returned unchanged;
in particular the examples given by the claim evaluate to `"jpeg"`, `"csv"` and
`"xlsx"`. -/
theorem metadata_filetype_alias :
    (∀ m : List Char, searchGroup m = some xlsxMime →
        metadata_to_filetype m = ("xlsx").toList) ∧
    (∀ (m g : List Char), searchGroup m = some g → g ≠ xlsxMime →
        metadata_to_filetype m = g) ∧
    metadata_to_filetype (("data:image/jpeg;base64,").toList)
      = ("jpeg").toList ∧
    metadata_to_filetype (("data:text/csv;base64,").toList)
      = ("csv").toList ∧
    metadata_to_filetype
        (("data:application/vnd.openxmlformats-officedocument.spreadsheetml.sheet;base64,").toList)
      = ("xlsx").toList := by
  refine ⟨?_, ?_, by decide, by decide, by decide⟩
  · intro m hm
    simp [metadata_to_filetype, hm]
  · intro m g hm hg
    simp [metadata_to_filetype, hm, hg]

/-- C5 (witness): the alias rule evaluated on the Excel Open XML data
URI. -/
theorem metadata_filetype_alias_witness :
    metadata_to_filetype
        (("data:application/vnd.openxmlformats-officedocument.spreadsheetml.sheet;base64,").toList)
      = ("xlsx").toList :=
  metadata_filetype_alias.1
    (("data:application/vnd.openxmlformats-officedocument.spreadsheetml.sheet;base64,").toList)
    (by decide)

/-- C6: `metadata_to_filetype` is a total function (the embedding is a
plain Lean function, so it never raises); whenever the regex finds no
match — in particular whenever the string has no `";base64,"` substring,
or no `/` at all — it returns the empty string as a valid non-error
result. -/
theorem metadata_filetype_total :
    (∀ m : List Char, searchGroup m = none → metadata_to_filetype m = []) ∧
    (∀ m : List Char, containsSub sepChars m = false →
        metadata_to_filetype m = []) ∧
    (∀ m : List Char, '/' ∉ m → metadata_to_filetype m = []) ∧
    metadata_to_filetype (("not a data uri").toList) = [] := by
  have base : ∀ m : List Char, searchGroup m = none →
      metadata_to_filetype m = [] := by
    intro m hm
    simp only [metadata_to_filetype, hm, Option.getD_none]
    rw [if_neg (by decide)]
  refine ⟨base, ?_, ?_, by decide⟩
  · intro m hm
    exact base m (searchGroup_none_of_no_sep m hm)
  · intro m hm
    exact base m (searchGroup_none_of_no_slash m hm)

/-- C6 (witness): a separator-free string classifies to the empty
label. -/
theorem metadata_filetype_total_witness :
    metadata_to_filetype (("hello world").toList) = [] :=
  metadata_filetype_total.2.1 (("hello world").toList) (by decide)

/-- C7 (counterexample): re-encoding is not the identity on every
accepted payload.  The body `"++=="` is accepted by `b64decode` (it
decodes to the byte `251`), but re-encoding `[251]` yields `"+w=="`,
which is not byte-equivalent to the original body. -/
theorem reencode_roundtrip_cx :
    input_to_file (("data:x/y").toList ++ (sepChars ++ ("++==").toList)) true
      = .ok (.bufMeta ⟨[251], 0⟩ (("data:x/y").toList ++ sepChars)) ∧
    b64encode [251] = ("+w==").toList ∧
    ("+w==").toList ≠ ("++==").toList := by decide

/-- C7 (amended): for every payload whose body is a canonical base64
encoding `b64(B)` (and whose prefix does not contain the separator),
re-encoding the contents of the returned buffer with the standard alphabet
and reassembling with the original metadata prefix and separator
reproduces the original payload exactly; for non-canonical accepted
bodies this can fail (see the counterexample). -/
theorem reencode_roundtrip (p : List Char) (B : List Nat)
    (hp : containsSub sepChars p = false) (hB : ∀ b ∈ B, b < 256) :
    input_to_file (p ++ (sepChars ++ b64encode B)) true
      = .ok (.bufMeta ⟨B, 0⟩ (p ++ sepChars)) ∧
    (p ++ sepChars) ++ b64encode (⟨B, 0⟩ : BytesIO).data
      = p ++ (sepChars ++ b64encode B) := by
  have hbody := b64encode_no_sep B hB
  have h1 := input_to_file_eval p (b64encode B) hp hbody true
  rw [b64decode_b64encode B hB] at h1
  exact ⟨by simpa using h1, by simp⟩

/-- C7 (witness): the amended re-encoding law evaluated at
`prefix = "data:text/plain"`, `B = [104, 105]`. -/
theorem reencode_roundtrip_witness :
    input_to_file
        (("data:text/plain").toList ++ (sepChars ++ b64encode [104, 105])) true
      = .ok (.bufMeta ⟨[104, 105], 0⟩ (("data:text/plain").toList ++ sepChars)) ∧
    (("data:text/plain").toList ++ sepChars) ++
        b64encode (⟨[104, 105], 0⟩ : BytesIO).data
      = ("data:text/plain").toList ++ (sepChars ++ b64encode [104, 105]) :=
  reencode_roundtrip (("data:text/plain").toList) [104, 105]
    (by decide) (by decide)

/-- C8: `file_to_dataframe` tries the parsers in a fixed order — CSV
first, then, on any failure, Excel — returns the first success, and
raises the single aggregate `ParserError` exactly when both parsers
fail. -/
theorem file_to_dataframe_fallback :
    ∀ (δ ε₁ ε₂ : Type) (rc : BytesIO → Except ε₁ δ)
      (re : BytesIO → Except ε₂ δ) (file : BytesIO),
      (∀ d, rc file = .ok d → file_to_dataframe rc re file = .ok d) ∧
      (∀ e₁ d, rc file = .error e₁ → re file = .ok d →
          file_to_dataframe rc re file = .ok d) ∧
      (∀ e₁ e₂, rc file = .error e₁ → re file = .error e₂ →
          file_to_dataframe rc re file = .error .parserError) ∧
      ((∃ e, file_to_dataframe rc re file = .error e) ↔
        ((∃ e₁, rc file = .error e₁) ∧ (∃ e₂, re file = .error e₂))) := by
  intro δ ε₁ ε₂ rc re file
  refine ⟨?_, ?_, ?_, ?_⟩
  · intro d h
    simp [file_to_dataframe, h]
  · intro e₁ d h1 h2
    simp [file_to_dataframe, h1, h2]
  · intro e₁ e₂ h1 h2
    simp [file_to_dataframe, h1, h2]
  · constructor
    · rintro ⟨e, he⟩
      cases hc : rc file with
      | ok d => simp [file_to_dataframe, hc] at he
      | error e₁ =>
        cases hx : re file with
        | ok d => simp [file_to_dataframe, hc, hx] at he
        | error e₂ => exact ⟨⟨e₁, rfl⟩, ⟨e₂, rfl⟩⟩
    · rintro ⟨⟨e₁, h1⟩, ⟨e₂, h2⟩⟩
      exact ⟨.parserError, by simp [file_to_dataframe, h1, h2]⟩

/-- C8 (witness): with both parsers failing on a concrete buffer, the
aggregate `ParserError` is raised. -/
theorem file_to_dataframe_fallback_witness :
    file_to_dataframe (fun _ => (.error () : Except Unit Nat))
        (fun _ => (.error () : Except Unit Nat)) ⟨[], 0⟩
      = .error .parserError :=
  (file_to_dataframe_fallback Nat Unit Unit
      (fun _ => .error ()) (fun _ => .error ()) ⟨[], 0⟩).2.2.1 () () rfl rfl

/-- C9: `send_gmail` never propagates an exception from the
mail-submission attempt: the embedding is a total function (the whole
SMTP interaction sits inside `try`/`except Exception`), every failure of
the attempt is caught and logged at error level, and a success is logged
at info level; either way the function returns normally. -/
theorem send_gmail_swallows :
    ∀ (ε : Type) (values : List (List (List Char)))
      (attempt : List Char → Except ε Unit),
      (∀ e, attempt (buildEmailBody values) = .error e →
          send_gmail values attempt = .err) ∧
      (attempt (buildEmailBody values) = .ok () →
          send_gmail values attempt = .info) := by
  intro ε values attempt
  constructor
  · intro e h
    simp [send_gmail, h]
  · intro h
    simp [send_gmail, h]

/-- C9 (witness): a failing SMTP attempt is swallowed and logged. -/
theorem send_gmail_swallows_witness :
    send_gmail [] (fun _ => (.error () : Except Unit Unit)) = .err :=
  (send_gmail_swallows Unit [] (fun _ => .error ())).1 () rfl

/-- C10 (counterexample): the download name does not always end in
exactly one `".txt"`.  For `filename = "x.txt.txt"` only one trailing
`".txt"` is stripped, so the rebuilt download name is `"x.txt.txt"`
again — ending in `".txt.txt"` — and the returned anchor embeds it. -/
theorem string_to_file_txt_cx :
    processFilename (("x.txt.txt").toList) ++ txtExt = ("x.txt.txt").toList ∧
    endsWithL ((".txt.txt").toList)
        (processFilename (("x.txt.txt").toList) ++ txtExt) = true ∧
    string_to_file (.str (("hi").toList)) (("x.txt.txt").toList) (("D").toList)
      = .ok (("<a href=").toList ++ [quoteChar] ++
             ("data:text/plain;base64,aGk=").toList ++ [quoteChar] ++
             (" download=").toList ++ [quoteChar] ++
             ("x.txt.txt").toList ++ [quoteChar] ++ (">").toList ++
             ("D").toList ++ ("</a>").toList) := by decide

/-- C10 (amended): for string text, `string_to_file` strips one trailing
`".txt"` from the filename if present and then appends `".txt"`; the
download name therefore always ends with `".txt"`, but not always with
exactly one copy — a filename ending in `".txt.txt"` survives unchanged
(see the counterexample).  For non-string text a `TypeError` is raised
and no anchor is produced. -/
theorem string_to_file_spec :
    (∀ t fn dt : List Char,
        string_to_file (.str t) fn dt =
          .ok (("<a href=").toList ++ [quoteChar] ++
               (("data:text/plain;base64,").toList ++
                 b64encode (utf8Encode t)) ++ [quoteChar] ++
               (" download=").toList ++ [quoteChar] ++
               (processFilename fn ++ txtExt) ++ [quoteChar] ++
               (">").toList ++ dt ++ ("</a>").toList)) ∧
    (∀ fn : List Char, endsWithL txtExt (processFilename fn ++ txtExt) = true) ∧
    (∀ fn dt : List Char, string_to_file .nonStr fn dt = .error .typeError) := by
  refine ⟨?_, ?_, ?_⟩
  · intro t fn dt
    simp [string_to_file]
  · intro fn
    exact endsWithL_append txtExt (processFilename fn)
  · intro fn dt
    rfl
